import Mathlib

/-!  Verification development for the meteor-shower observation app:
the Observation Statistics & Streak Engine (`ObservationService`) and the
Astronomy Calculator (`AstronomyService`), embedded shallowly.

Conventions of the embedding:
* calendar timestamps are epoch milliseconds (`ℤ`); the `date` field of an
  observation is the timestamp of its calendar date, `startTime`/`endTime`
  are minutes since local midnight (the `HH:MM` strings of the source);
* JavaScript objects used as string-keyed maps are insertion-ordered
  association lists (`List (κ × β)`);
* the en-US month label "August 2025" is represented by the underlying
  (year, month) pair, computed from the timestamp by the standard
  civil-from-days algorithm;
* storage (`AsyncStorage`) is a record of the two stored items; each storage
  primitive call takes a `Bool` saying whether that call throws, so the
  service's `try`/`catch` structure is explicit.
-/

/-- One user-recorded viewing session (the fields the statistics engine
reads; `meteorsCount` is `observations.meteorsCount` of the source). -/
structure Obs where
  id : String
  showerId : String
  date : ℤ
  startTime : ℕ
  endTime : ℕ
  meteorsCount : ℕ
  rating : ℕ
  notes : String
  createdAt : ℤ
  updatedAt : ℤ
deriving DecidableEq

/-- The `bestSession` record stored per shower. -/
structure BestSession where
  date : ℤ
  meteors : ℕ
  rating : ℕ
deriving DecidableEq

/-- Per-shower aggregate record of `showerStats`. -/
structure ShowerStat where
  observations : ℕ
  totalMeteors : ℕ
  averageRating : ℚ
  bestSession : BestSession
deriving DecidableEq

/-- Result of `calculateStreaks`. -/
structure StreakResult where
  currentStreak : ℕ
  longestStreak : ℕ
deriving DecidableEq

/-- The aggregate statistics record. -/
structure ObservationStats where
  totalObservations : ℕ
  totalMeteors : ℕ
  totalHours : ℚ
  averageRating : ℚ
  favoriteShower : String
  longestSession : ℚ
  currentStreak : ℕ
  longestStreak : ℕ
  monthlyStats : List ((ℤ × ℤ) × ℕ)
  showerStats : List (String × ShowerStat)
deriving DecidableEq

section AListHelpers

variable {κ β : Type} [DecidableEq κ]

/-- First value stored under key `k` (JS object property read). -/
def lookupA (k : κ) : List (κ × β) → Option β
  | [] => none
  | e :: m => if e.1 = k then some e.2 else lookupA k m

/-- Update the value under key `k` in place, preserving key order
(JS object property write on an existing key). -/
def updateA (k : κ) (f : β → β) : List (κ × β) → List (κ × β)
  | [] => []
  | e :: m => if e.1 = k then (e.1, f e.2) :: m else e :: updateA k f m

/-- The keys of the map, in insertion order (`Object.keys`). -/
def keysOf (m : List (κ × β)) : List κ := m.map (fun e => e.1)

end AListHelpers

/-- Last element of a list, with a default for the empty list. -/
def lastD {α : Type} : List α → α → α
  | [], d => d
  | [a], _ => a
  | _ :: b :: l, d => lastD (b :: l) d

/-- `Math.max(...)` over a list of rationals (the source only applies it to
a non-empty list; the empty case is given the sentinel `0`). -/
def listMaxQ : List ℚ → ℚ
  | [] => 0
  | x :: xs => xs.foldl max x

/-- The GAP TEST of the streak calculator: the source computes
`diffDays = (curr - prev) / (1000*60*60*24)` from millisecond timestamps and
checks `diffDays <= 7`. -/
def dayGapLE (a b : ℤ) : Prop := ((b : ℚ) - (a : ℚ)) / 86400000 ≤ 7

instance (a b : ℤ) : Decidable (dayGapLE a b) :=
  inferInstanceAs (Decidable (((b : ℚ) - (a : ℚ)) / 86400000 ≤ 7))

/-- The loop of `calculateStreaks` (lines 167-178): walks the sorted list
carrying the previous observation, the running streak `temp` and the best
completed streak; returns `(tempStreak, longestStreak, last observation)`. -/
def streakLoop : Obs → ℕ → ℕ → List Obs → ℕ × ℕ × Obs
  | prev, temp, longest, [] => (temp, longest, prev)
  | prev, temp, longest, curr :: rest =>
    if dayGapLE prev.date curr.date then streakLoop curr (temp + 1) longest rest
    else streakLoop curr 1 (max longest temp) rest

/-- `ObservationService.calculateStreaks`: input already sorted ascending by
date; `now` is the wall-clock evaluation time, made explicit. -/
def calculateStreaks (now : ℤ) : List Obs → StreakResult
  | [] => ⟨0, 0⟩
  | d :: ds =>
    let r := streakLoop d 1 1 ds
    ⟨if dayGapLE r.2.2.date now then r.1 else 0, max r.2.1 r.1⟩

/-- The session key of an observation inside `showerStats.bestSession`. -/
def toBest (o : Obs) : BestSession := ⟨o.date, o.meteorsCount, o.rating⟩

/-- The record created when a shower is first seen (lines 107-112). -/
def initStat (o : Obs) : ShowerStat := ⟨0, 0, 0, toBest o⟩

/-- The per-observation update of a shower's record (lines 115-122):
bump the counters, then replace `bestSession` when the session has strictly
more meteors, or equally many and a strictly higher rating. -/
def applyObs (o : Obs) (s : ShowerStat) : ShowerStat :=
  let s1 : ShowerStat :=
    { s with observations := s.observations + 1
             totalMeteors := s.totalMeteors + o.meteorsCount }
  if o.meteorsCount > s1.bestSession.meteors ∨
      (o.meteorsCount = s1.bestSession.meteors ∧ o.rating > s1.bestSession.rating) then
    { s1 with bestSession := toBest o }
  else s1

/-- One iteration of the `showerStats` building loop (lines 105-123). -/
def showerStep (m : List (String × ShowerStat)) (o : Obs) : List (String × ShowerStat) :=
  let m1 := match lookupA o.showerId m with
    | some _ => m
    | none => m ++ [(o.showerId, initStat o)]
  updateA o.showerId (applyObs o) m1

/-- Mean rating of a list of observations (`reduce(...)/length`). -/
def ratingAvg (g : List Obs) : ℚ := (((g.map (fun o => o.rating)).sum : ℕ) : ℚ) / (g.length : ℚ)

/-- The second pass over `showerStats` (lines 126-129): recompute each
shower's `averageRating` from the observations of that shower. -/
def avgPass (l : List Obs) (m : List (String × ShowerStat)) : List (String × ShowerStat) :=
  m.map (fun e => (e.1, { e.2 with averageRating := ratingAvg (l.filter (fun o => o.showerId == e.1)) }))

/-- `showerStats[k].observations`, with the source's `?.observations || 0`
fallback for an absent key. -/
def countOf (m : List (String × ShowerStat)) (k : String) : ℕ :=
  ((lookupA k m).map (fun s => s.observations)).getD 0

/-- Proleptic-Gregorian (year, month) of a day number (days since epoch);
the standard civil-from-days algorithm.  This is the pair underlying the
en-US label `"<Month name> <Year>"` of the source's `toLocaleDateString`. -/
def civilFromDays (z0 : ℤ) : ℤ × ℤ :=
  let z := z0 + 719468
  let era := Int.fdiv z 146097
  let doe := z - era * 146097
  let yoe := Int.fdiv (doe - Int.fdiv doe 1460 + Int.fdiv doe 36524 - Int.fdiv doe 146096) 365
  let y := yoe + era * 400
  let doy := doe - (365 * yoe + Int.fdiv yoe 4 - Int.fdiv yoe 100)
  let mp := Int.fdiv (5 * doy + 2) 153
  let m := if mp < 10 then mp + 3 else mp - 9
  (if m ≤ 2 then y + 1 else y, m)

/-- The month grouping key of an observation. -/
def monthKey (o : Obs) : ℤ × ℤ := civilFromDays (Int.fdiv o.date 86400000)

/-- One iteration of the `monthlyStats` loop (lines 98-101):
`monthlyStats[month] = (monthlyStats[month] || 0) + 1`. -/
def monthStep (m : List ((ℤ × ℤ) × ℕ)) (o : Obs) : List ((ℤ × ℤ) × ℕ) :=
  match lookupA (monthKey o) m with
  | some _ => updateA (monthKey o) (fun n => n + 1) m
  | none => m ++ [(monthKey o, 1)]

/-- Duration of a session in hours (lines 88-92 and 140-144): both endpoints
are parsed on the session's own calendar date, so the value is negative when
the textual end time precedes the start time. -/
def durationHours (o : Obs) : ℚ :=
  ((((o.date + (o.endTime : ℤ) * 60000) - (o.date + (o.startTime : ℤ) * 60000)) : ℤ) : ℚ) / 3600000

/-- Stable insertion into a list sorted ascending by `date`. -/
def insByDate (o : Obs) : List Obs → List Obs
  | [] => [o]
  | x :: l => if x.date ≤ o.date then x :: insByDate o l else o :: x :: l

/-- The `sort((a, b) => a.date - b.date)` call (line 136): a stable
ascending sort by date. -/
def sortByDate (l : List Obs) : List Obs := l.foldr insByDate []

/-- `ObservationService.getEmptyStats`. -/
def getEmptyStats : ObservationStats :=
  { totalObservations := 0
    totalMeteors := 0
    totalHours := 0
    averageRating := 0
    favoriteShower := ""
    longestSession := 0
    currentStreak := 0
    longestStreak := 0
    monthlyStats := []
    showerStats := [] }

/-- `ObservationService.calculateStats`, with the wall-clock time of the
streak calculation passed explicitly. -/
def calculateStats (now : ℤ) (l : List Obs) : ObservationStats :=
  match l with
  | [] => getEmptyStats
  | _ :: _ =>
    let monthly := l.foldl monthStep []
    let showerS := avgPass l (l.foldl showerStep [])
    let favorite := (keysOf showerS).foldl
      (fun fav k => if countOf showerS k > countOf showerS fav then k else fav) ""
    let sorted := sortByDate l
    let streaks := calculateStreaks now sorted
    { totalObservations := l.length
      totalMeteors := (l.map (fun o => o.meteorsCount)).sum
      totalHours := (l.map durationHours).sum
      averageRating := (((l.map (fun o => o.rating)).sum : ℕ) : ℚ) / (l.length : ℚ)
      favoriteShower := favorite
      longestSession := listMaxQ (sorted.map durationHours)
      currentStreak := streaks.currentStreak
      longestStreak := streaks.longestStreak
      monthlyStats := monthly
      showerStats := showerS }

/-- The persisted key-value store: the two `AsyncStorage` items. -/
structure KV where
  obsItem : Option (List Obs)
  statsItem : Option ObservationStats
deriving DecidableEq

instance : DecidableEq (Except Unit Unit) := fun a b =>
  match a, b with
  | .ok (), .ok () => isTrue rfl
  | .error (), .error () => isTrue rfl
  | .ok (), .error () => isFalse (fun h => nomatch h)
  | .error (), .ok () => isFalse (fun h => nomatch h)

/-- `ObservationService.getObservations`: a failing read is caught and
degrades to the empty list. -/
def getObservations (kv : KV) (fail : Bool) : List Obs :=
  if fail then [] else kv.obsItem.getD []

/-- `ObservationService.getStats`: a failing read degrades to the zero
record; an absent item also yields the zero record. -/
def getStats (kv : KV) (fail : Bool) : ObservationStats :=
  if fail then getEmptyStats else kv.statsItem.getD getEmptyStats

/-- `ObservationService.updateStats`: re-read the list, recompute, write the
stats item; every error is caught and swallowed (lines 72-80). -/
def updateStats (now : ℤ) (kv : KV) (failGet failSet : Bool) : KV :=
  let l := getObservations kv failGet
  let stats := calculateStats now l
  if failSet then kv else { kv with statsItem := some stats }

/-- Replace the first list entry whose id matches (assignment at
`findIndex`), refreshing `updatedAt`. -/
def replaceFirst (o : Obs) (now : ℤ) : List Obs → List Obs
  | [] => []
  | x :: l => if x.id = o.id then { o with updatedAt := now } :: l else x :: replaceFirst o now l

/-- Lines 21-27 of `saveObservation`: replace the record at the found index
(with a refreshed `updatedAt`), else push the observation unchanged. -/
def upsertList (now : ℤ) (o : Obs) (l : List Obs) : List Obs :=
  if l.any (fun x => x.id == o.id) then replaceFirst o now l else l ++ [o]

/-- `ObservationService.saveObservation`.  `f1`: the read inside
`getObservations` throws; `f2`: the write of the observation list throws
(caught and rethrown); `f3`/`f4`: the read/write inside `updateStats` throw
(caught and swallowed there). -/
def saveObservation (now : ℤ) (kv : KV) (o : Obs) (f1 f2 f3 f4 : Bool) :
    Except Unit Unit × KV :=
  let l := getObservations kv f1
  let l2 := upsertList now o l
  if f2 then (Except.error (), kv)
  else (Except.ok (), updateStats now { kv with obsItem := some l2 } f3 f4)

/-- `ObservationService.deleteObservation`, same fault parameters. -/
def deleteObservation (now : ℤ) (kv : KV) (oid : String) (f1 f2 f3 f4 : Bool) :
    Except Unit Unit × KV :=
  let l := getObservations kv f1
  let l2 := l.filter (fun x => !(x.id == oid))
  if f2 then (Except.error (), kv)
  else (Except.ok (), updateStats now { kv with obsItem := some l2 } f3 f4)

/-- `AstronomyService.getMoonPhase`: fractional position in the synodic
cycle, anchored at the new moon of 2000-01-06 (epoch ms 947116800000);
`t` is the queried date's epoch-millisecond timestamp. -/
noncomputable def getMoonPhase (t : ℝ) : ℝ :=
  let daysSince := (t - 947116800000) / 86400000
  let cycle := daysSince / 29.53059
  cycle - (⌊cycle⌋ : ℝ)

/-- `AstronomyService.getMoonIllumination`:
`Math.round(Math.abs(Math.cos(phase * 2 * Math.PI)) * 100)`. -/
noncomputable def getMoonIllumination (t : ℝ) : ℤ :=
  round (|Real.cos (getMoonPhase t * (2 * Real.pi))| * 100)

/-! ### Specification-side definitions

The following definitions render the spec's wording (maximal runs, argmax
with first-appearance tie-break, first-appearance key order); the theorems
below compare the source translations against them. -/

/-- Add `k` to the first entry of a list of run lengths. -/
def headBump (k : ℕ) : List ℕ → List ℕ
  | [] => []
  | n :: ns => (n + k) :: ns

/-- Lengths of the maximal runs of `a :: l`: `a` joins the first run of `l`
when the gap to `l`'s head is at most 7 days, else it forms its own run. -/
def runLensAux : Obs → List Obs → List ℕ
  | _, [] => [1]
  | a, b :: rest =>
    if dayGapLE a.date b.date then headBump 1 (runLensAux b rest)
    else 1 :: runLensAux b rest

/-- Lengths of the maximal runs (gap at most 7 days between consecutive
observations) of a list, in order. -/
def runLens : List Obs → List ℕ
  | [] => []
  | a :: l => runLensAux a l

/-- Length of the longest maximal run. -/
def longestRunSpec (l : List Obs) : ℕ := (runLens l).foldr max 0

/-- Length of the trailing run. -/
def trailingRunSpec (l : List Obs) : ℕ := lastD (runLens l) 0

/-- The spec's `currentStreak`: the trailing run length if the last
observation is within 7 days of `now`, else 0 (0 on the empty list). -/
def currentStreakSpec (now : ℤ) (l : List Obs) : ℕ :=
  match l.getLast? with
  | none => 0
  | some a => if dayGapLE a.date now then trailingRunSpec l else 0

/-- Left fold selecting a maximum under `le`, keeping the earlier element
on ties (replace only when the accumulator is not at least the candidate). -/
def foldBest {α : Type} (le : α → α → Bool) (b : α) (xs : List α) : α :=
  xs.foldl (fun acc x => if le x acc then acc else x) b

/-- `m` is a maximum of `l` under `le`. -/
def maxPred {α : Type} (le : α → α → Bool) (l : List α) (m : α) : Bool :=
  l.all (fun x => le x m)

/-- The FIRST element of `l` that is a maximum of `l` under `le`:
the spec's "highest …, ties broken by first appearance in the list". -/
def firstMaxSpec {α : Type} (le : α → α → Bool) (l : List α) : Option α :=
  l.find? (maxPred le l)

/-- Session ordering: more meteors, or equally many and a rating at least
as high (so the strict order is the source's replacement condition). -/
def leBest (b c : BestSession) : Bool :=
  decide (b.meteors < c.meteors ∨ (b.meteors = c.meteors ∧ b.rating ≤ c.rating))

/-- Key ordering by observation count in a shower-stats map. -/
def leCount (m : List (String × ShowerStat)) (a b : String) : Bool :=
  decide (countOf m a ≤ countOf m b)

/-- Deduplicate keeping first occurrences, relative to already seen keys. -/
def firstKeysAux (seen : List String) : List String → List String
  | [] => []
  | a :: l => if a ∈ seen then firstKeysAux seen l else a :: firstKeysAux (a :: seen) l

/-- The distinct elements of `l` in order of first appearance. -/
def firstKeys (l : List String) : List String := firstKeysAux [] l

/-- The shower record obtained by folding a (filtered) group in order. -/
def groupAgg : List Obs → Option ShowerStat
  | [] => none
  | x :: g => some (g.foldl (fun a o => applyObs o a) (applyObs x (initStat x)))

/-! ### Concrete inputs used by counterexamples and witnesses -/

/-- An evaluation time far past 2025-01-20 (2025-06-01). -/
def farNow : ℤ := 1748736000000

/-- Observation dated 2025-01-01. -/
def oStreak1 : Obs := ⟨"s1", "per", 1735689600000, 0, 60, 5, 3, "", 0, 0⟩

/-- Observation dated 2025-01-05. -/
def oStreak2 : Obs := ⟨"s2", "per", 1736035200000, 0, 60, 7, 4, "", 0, 0⟩

/-- Observation dated 2025-01-20. -/
def oStreak3 : Obs := ⟨"s3", "per", 1737331200000, 0, 60, 9, 5, "", 0, 0⟩

/-- A session crossing midnight: 23:00 to 01:00 on 2025-01-01. -/
def oMidnight : Obs := ⟨"m1", "per", 1735689600000, 1380, 60, 3, 4, "", 0, 0⟩

/-- 10 meteors, rating 5. -/
def oBest10 : Obs := ⟨"b1", "per", 100, 0, 60, 10, 5, "", 0, 0⟩

/-- 25 meteors, rating 3. -/
def oBest25 : Obs := ⟨"b2", "per", 200, 0, 60, 25, 3, "", 0, 0⟩

/-- An observation of shower "a". -/
def oShowerA : Obs := ⟨"a1", "a", 100, 0, 60, 1, 5, "", 0, 0⟩

/-- An observation whose showerId is the empty string. -/
def oShowerEmpty : Obs := ⟨"e1", "", 200, 0, 60, 1, 5, "", 0, 0⟩

/-- An observation to be saved, with `updatedAt` 5. -/
def oSave : Obs := ⟨"save1", "per", 300, 0, 60, 2, 4, "", 0, 5⟩

/-- A store already holding one observation. -/
def kvPrev : KV := ⟨some [oShowerA], none⟩

/-! ### Association-list lemmas -/

section AListLemmas

variable {κ β : Type} [DecidableEq κ]

omit [DecidableEq κ] in
theorem keysOf_cons (e : κ × β) (m : List (κ × β)) :
    keysOf (e :: m) = e.1 :: keysOf m := rfl

theorem lookupA_updateA_self (k : κ) (f : β → β) (m : List (κ × β)) :
    lookupA k (updateA k f m) = (lookupA k m).map f := by
  induction m with
  | nil => simp [lookupA, updateA]
  | cons e m ih =>
    by_cases hek : e.1 = k
    · simp [lookupA, updateA, hek]
    · simp [lookupA, updateA, hek, ih]

theorem lookupA_updateA_ne {k s : κ} (hsk : s ≠ k) (f : β → β) (m : List (κ × β)) :
    lookupA s (updateA k f m) = lookupA s m := by
  induction m with
  | nil => simp [updateA]
  | cons e m ih =>
    have hks : ¬ k = s := fun h => hsk h.symm
    by_cases hek : e.1 = k
    · have hes : ¬ e.1 = s := fun h => hsk (by rw [← h, hek])
      simp [lookupA, updateA, hek, hes, hks, hsk]
    · by_cases hes : e.1 = s
      · simp [lookupA, updateA, hek, hes, hks, hsk]
      · simp [lookupA, updateA, hek, hes, hks, hsk, ih]

theorem lookupA_append_some {m₁ m₂ : List (κ × β)} {s : κ} {v : β}
    (h : lookupA s m₁ = some v) : lookupA s (m₁ ++ m₂) = some v := by
  induction m₁ with
  | nil => simp [lookupA] at h
  | cons e m ih =>
    by_cases hes : e.1 = s
    · simp [lookupA, hes] at h ⊢; exact h
    · simp [lookupA, hes] at h ⊢; exact ih h

theorem lookupA_append_none {m₁ m₂ : List (κ × β)} {s : κ}
    (h : lookupA s m₁ = none) : lookupA s (m₁ ++ m₂) = lookupA s m₂ := by
  induction m₁ with
  | nil => simp
  | cons e m ih =>
    by_cases hes : e.1 = s
    · simp [lookupA, hes] at h
    · simp [lookupA, hes] at h ⊢; exact ih h

theorem lookupA_eq_none_iff {m : List (κ × β)} {s : κ} :
    lookupA s m = none ↔ s ∉ keysOf m := by
  induction m with
  | nil => simp [lookupA, keysOf]
  | cons e m ih =>
    by_cases hes : e.1 = s
    · simp [lookupA, keysOf_cons, hes]
    · simp only [lookupA, if_neg hes, keysOf_cons, List.mem_cons]
      rw [ih]
      constructor
      · intro h hc
        rcases hc with hc | hc
        · exact hes hc.symm
        · exact h hc
      · intro h hc
        exact h (Or.inr hc)

theorem lookupA_isSome_iff {m : List (κ × β)} {s : κ} :
    (lookupA s m).isSome = true ↔ s ∈ keysOf m := by
  rw [Option.isSome_iff_ne_none]
  exact not_iff_comm.mp lookupA_eq_none_iff.symm

theorem keysOf_updateA (k : κ) (f : β → β) (m : List (κ × β)) :
    keysOf (updateA k f m) = keysOf m := by
  induction m with
  | nil => rfl
  | cons e m ih =>
    by_cases hek : e.1 = k
    · simp [updateA, keysOf, hek]
    · simp [updateA, keysOf, hek] at ih ⊢; exact ih

theorem sumProj_updateA (pv : β → ℕ) (k : κ) (f : β → β) (c : ℕ) (m : List (κ × β))
    (hf : ∀ v, pv (f v) = pv v + c) (h : (lookupA k m).isSome = true) :
    ((updateA k f m).map (fun e => pv e.2)).sum = ((m.map (fun e => pv e.2)).sum) + c := by
  induction m with
  | nil => simp [lookupA] at h
  | cons e m ih =>
    by_cases hek : e.1 = k
    · simp [updateA, hek, hf]; omega
    · have hk : (lookupA k m).isSome = true := by
        simpa [lookupA, hek] using h
      simp [updateA, hek, ih hk]; omega

end AListLemmas

/-! ### First-maximum fold: generic development -/

section FirstMax

variable {α : Type} (le : α → α → Bool)

theorem exists_max_le (htot : ∀ a b, le a b = true ∨ le b a = true)
    (htrans : ∀ a b c, le a b = true → le b c = true → le a c = true) :
    ∀ l : List α, l ≠ [] → ∃ m, m ∈ l ∧ ∀ x ∈ l, le x m = true := by
  intro l
  induction l with
  | nil => intro h; exact absurd rfl h
  | cons a l ih =>
    intro _
    rcases eq_or_ne l [] with hl | hl
    · subst hl
      refine ⟨a, List.mem_singleton.mpr rfl, ?_⟩
      intro x hx
      rw [List.mem_singleton] at hx; subst hx
      rcases htot x x with h | h <;> exact h
    · obtain ⟨m, hm, hall⟩ := ih hl
      rcases htot a m with ham | hma
      · refine ⟨m, List.mem_cons_of_mem _ hm, ?_⟩
        intro x hx
        rcases List.mem_cons.mp hx with rfl | hx
        · exact ham
        · exact hall x hx
      · refine ⟨a, List.mem_cons_self _ _, ?_⟩
        intro x hx
        rcases List.mem_cons.mp hx with rfl | hx
        · rcases htot x x with h | h <;> exact h
        · exact htrans x m a (hall x hx) hma

theorem find?_isSome_of_exists {p : α → Bool} {l : List α}
    (h : ∃ x, x ∈ l ∧ p x = true) : (l.find? p).isSome = true := by
  induction l with
  | nil => obtain ⟨x, hx, _⟩ := h; simp at hx
  | cons a l ih =>
    cases hpa : p a with
    | true => simp [List.find?, hpa]
    | false =>
      obtain ⟨x, hx, hpx⟩ := h
      rcases List.mem_cons.mp hx with rfl | hx
      · rw [hpa] at hpx; exact absurd hpx (by simp)
      · simp only [List.find?, hpa]
        exact ih ⟨x, hx, hpx⟩

theorem firstMaxSpec_isSome (htot : ∀ a b, le a b = true ∨ le b a = true)
    (htrans : ∀ a b c, le a b = true → le b c = true → le a c = true)
    {l : List α} (h : l ≠ []) : (firstMaxSpec le l).isSome = true := by
  obtain ⟨m, hm, hall⟩ := exists_max_le le htot htrans l h
  exact find?_isSome_of_exists ⟨m, hm, by simpa [maxPred, List.all_eq_true] using hall⟩

end FirstMax

theorem foldBest_eq_firstMax {α : Type} (le : α → α → Bool)
    (htot : ∀ a b, le a b = true ∨ le b a = true)
    (htrans : ∀ a b c, le a b = true → le b c = true → le a c = true) :
    ∀ (xs : List α) (b : α), foldBest le b xs = (firstMaxSpec le (b :: xs)).getD b := by
  have hrefl : ∀ a, le a a = true := fun a => by rcases htot a a with h | h <;> exact h
  intro xs
  induction xs with
  | nil =>
    intro b
    simp [foldBest, firstMaxSpec, maxPred, List.find?, hrefl]
  | cons x xs ih =>
    intro b
    have hfold : foldBest le b (x :: xs) = foldBest le (if le x b then b else x) xs := by
      simp [foldBest]
    cases hxb : le x b with
    | true =>
      rw [hfold]
      simp only [hxb, if_true]
      rw [ih b]
      have hpred : maxPred le (b :: x :: xs) = maxPred le (b :: xs) := by
        funext m
        simp only [maxPred, List.all_cons]
        cases hbm : le b m with
        | false => simp
        | true =>
          have hxm : le x m = true := htrans x b m hxb hbm
          simp [hxm]
      unfold firstMaxSpec
      rw [hpred]
      cases hPb : maxPred le (b :: xs) b with
      | true =>
        rw [List.find?_cons_of_pos _ hPb, List.find?_cons_of_pos _ hPb]
      | false =>
        have hPx : maxPred le (b :: xs) x = false := by
          cases hP : maxPred le (b :: xs) x with
          | false => rfl
          | true =>
            exfalso
            have hPb' : ¬ (le b b = true ∧ ∀ a ∈ xs, le a b = true) := by
              simpa [maxPred, List.all_cons, List.all_eq_true] using hPb
            have hP' : le b x = true ∧ ∀ a ∈ xs, le a x = true := by
              simpa [maxPred, List.all_cons, List.all_eq_true] using hP
            exact hPb' ⟨hrefl b, fun a ha => htrans a x b (hP'.2 a ha) hxb⟩
        rw [List.find?_cons_of_neg _ (by simp [hPb]),
            List.find?_cons_of_neg _ (by simp [hPb]),
            List.find?_cons_of_neg _ (by simp [hPx])]
    | false =>
      have hbx : le b x = true := by
        rcases htot b x with h | h
        · exact h
        · rw [h] at hxb; exact absurd hxb (by simp)
      have hcond : ¬ (le x b = true) := by simp [hxb]
      rw [hfold, if_neg hcond, ih x]
      have hpred : maxPred le (b :: x :: xs) = maxPred le (x :: xs) := by
        funext m
        simp only [maxPred, List.all_cons]
        cases hxm : le x m with
        | false => simp
        | true =>
          have hbm : le b m = true := htrans b x m hbx hxm
          simp [hbm]
      unfold firstMaxSpec
      rw [hpred]
      have hPb : maxPred le (x :: xs) b = false := by
        simp only [maxPred, List.all_cons, hxb]
        simp
      rw [show List.find? (maxPred le (x :: xs)) (b :: x :: xs) =
            List.find? (maxPred le (x :: xs)) (x :: xs) from
          List.find?_cons_of_neg _ (by simp [hPb])]
      have hsome := firstMaxSpec_isSome le htot htrans (l := x :: xs) (by simp)
      unfold firstMaxSpec at hsome
      obtain ⟨v, hv⟩ := Option.isSome_iff_exists.mp hsome
      rw [hv]
      simp

/-! ### Shower statistics fold lemmas -/

theorem applyObs_observations (o : Obs) (s : ShowerStat) :
    (applyObs o s).observations = s.observations + 1 := by
  simp only [applyObs]
  split <;> rfl

theorem applyObs_totalMeteors (o : Obs) (s : ShowerStat) :
    (applyObs o s).totalMeteors = s.totalMeteors + o.meteorsCount := by
  simp only [applyObs]
  split <;> rfl

theorem applyObs_averageRating (o : Obs) (s : ShowerStat) :
    (applyObs o s).averageRating = s.averageRating := by
  simp only [applyObs]
  split <;> rfl

theorem applyObs_bestSession (o : Obs) (s : ShowerStat) :
    (applyObs o s).bestSession =
      if leBest (toBest o) s.bestSession then s.bestSession else toBest o := by
  by_cases hC : o.meteorsCount > s.bestSession.meteors ∨
      (o.meteorsCount = s.bestSession.meteors ∧ o.rating > s.bestSession.rating)
  · have h1 : (applyObs o s).bestSession = toBest o := by
      simp only [applyObs]
      rw [if_pos hC]
    have h2 : leBest (toBest o) s.bestSession = false := by
      simp only [leBest, toBest, decide_eq_false_iff_not]
      omega
    rw [h1, h2]
    simp
  · have h1 : (applyObs o s).bestSession = s.bestSession := by
      simp only [applyObs]
      rw [if_neg hC]
    have h2 : leBest (toBest o) s.bestSession = true := by
      simp only [leBest, toBest, decide_eq_true_eq]
      omega
    rw [h1, h2]
    simp

theorem lookupA_foldl_showerStep :
    ∀ (l : List Obs) (m : List (String × ShowerStat)) (s : String),
      lookupA s (l.foldl showerStep m) =
        match lookupA s m with
        | some t => some ((l.filter (fun o => o.showerId == s)).foldl (fun a o => applyObs o a) t)
        | none => groupAgg (l.filter (fun o => o.showerId == s)) := by
  intro l
  induction l with
  | nil =>
    intro m s
    cases h : lookupA s m <;> simp [h, groupAgg]
  | cons o l ih =>
    intro m s
    rw [List.foldl_cons, ih (showerStep m o) s]
    by_cases hos : o.showerId = s
    · subst hos
      rw [List.filter_cons_of_pos (by simp)]
      cases hm : lookupA o.showerId m with
      | some t =>
        have hstep : lookupA o.showerId (showerStep m o) = some (applyObs o t) := by
          simp only [showerStep, hm]
          rw [lookupA_updateA_self, hm]
          rfl
        simp only [hstep, hm]
        simp [List.foldl_cons]
      | none =>
        have hstep : lookupA o.showerId (showerStep m o) = some (applyObs o (initStat o)) := by
          simp only [showerStep, hm]
          rw [lookupA_updateA_self, lookupA_append_none hm]
          simp [lookupA]
        simp only [hstep, hm]
        simp [groupAgg, List.foldl_cons]
    · have hbeq : (o.showerId == s) = false := beq_eq_false_iff_ne.mpr hos
      rw [List.filter_cons_of_neg (by simp [hbeq])]
      have hso : s ≠ o.showerId := fun h => hos h.symm
      have hstep : lookupA s (showerStep m o) = lookupA s m := by
        simp only [showerStep]
        cases hm : lookupA o.showerId m with
        | some t => rw [lookupA_updateA_ne hso]
        | none =>
          rw [lookupA_updateA_ne hso]
          cases hsm : lookupA s m with
          | some v => rw [lookupA_append_some hsm]
          | none =>
            rw [lookupA_append_none hsm]
            simp [lookupA]
            exact hos
      rw [hstep]

theorem foldl_applyObs_observations (g : List Obs) : ∀ t : ShowerStat,
    (g.foldl (fun a o => applyObs o a) t).observations = t.observations + g.length := by
  induction g with
  | nil => intro t; simp
  | cons o g ih =>
    intro t
    rw [List.foldl_cons, ih, applyObs_observations]
    simp
    omega

theorem foldl_applyObs_totalMeteors (g : List Obs) : ∀ t : ShowerStat,
    (g.foldl (fun a o => applyObs o a) t).totalMeteors =
      t.totalMeteors + (g.map (fun o => o.meteorsCount)).sum := by
  induction g with
  | nil => intro t; simp
  | cons o g ih =>
    intro t
    rw [List.foldl_cons, ih, applyObs_totalMeteors]
    simp
    omega

theorem foldl_applyObs_bestSession (g : List Obs) : ∀ t : ShowerStat,
    (g.foldl (fun a o => applyObs o a) t).bestSession =
      foldBest leBest t.bestSession (g.map toBest) := by
  induction g with
  | nil => intro t; simp [foldBest]
  | cons o g ih =>
    intro t
    rw [List.foldl_cons, ih, applyObs_bestSession]
    simp only [foldBest, List.map_cons, List.foldl_cons]

theorem lookupA_avgPass (l : List Obs) (m : List (String × ShowerStat)) (s : String) :
    lookupA s (avgPass l m) =
      (lookupA s m).map
        (fun t => { t with averageRating := ratingAvg (l.filter (fun o => o.showerId == s)) }) := by
  induction m with
  | nil => simp [avgPass, lookupA]
  | cons e m ih =>
    have hcons : avgPass l (e :: m) =
        (e.1, { e.2 with
          averageRating := ratingAvg (l.filter (fun o => o.showerId == e.1)) }) :: avgPass l m :=
      rfl
    by_cases hes : e.1 = s
    · subst hes
      rw [hcons]
      simp [lookupA]
    · rw [hcons]
      simp [lookupA, hes, ih]

theorem keysOf_avgPass (l : List Obs) (m : List (String × ShowerStat)) :
    keysOf (avgPass l m) = keysOf m := by
  unfold avgPass keysOf
  rw [List.map_map]
  rfl

theorem sumObs_avgPass (l : List Obs) (m : List (String × ShowerStat)) :
    ((avgPass l m).map (fun e => e.2.observations)).sum =
      (m.map (fun e => e.2.observations)).sum := by
  unfold avgPass
  rw [List.map_map]
  rfl

theorem sumMet_avgPass (l : List Obs) (m : List (String × ShowerStat)) :
    ((avgPass l m).map (fun e => e.2.totalMeteors)).sum =
      (m.map (fun e => e.2.totalMeteors)).sum := by
  unfold avgPass
  rw [List.map_map]
  rfl

/-! ### Key-order and sum lemmas -/

theorem keysOf_showerStep (m : List (String × ShowerStat)) (o : Obs) :
    keysOf (showerStep m o) =
      if (lookupA o.showerId m).isSome then keysOf m else keysOf m ++ [o.showerId] := by
  simp only [showerStep]
  cases hm : lookupA o.showerId m with
  | some t => rw [keysOf_updateA]; simp [hm]
  | none =>
    rw [keysOf_updateA]
    simp [hm, keysOf, List.map_append]

theorem firstKeysAux_congr : ∀ (l s₁ s₂ : List String),
    (∀ x, x ∈ s₁ ↔ x ∈ s₂) → firstKeysAux s₁ l = firstKeysAux s₂ l := by
  intro l
  induction l with
  | nil => intro s₁ s₂ _; rfl
  | cons a l ih =>
    intro s₁ s₂ h
    by_cases ha : a ∈ s₁
    · simp [firstKeysAux, ha, (h a).mp ha]
      exact ih _ _ h
    · have ha2 : a ∉ s₂ := fun hx => ha ((h a).mpr hx)
      simp [firstKeysAux, ha, ha2]
      exact ih _ _ (fun x => by simp [List.mem_cons, h x])

theorem keysOf_foldl_showerStep : ∀ (l : List Obs) (m : List (String × ShowerStat)),
    keysOf (l.foldl showerStep m) =
      keysOf m ++ firstKeysAux (keysOf m) (l.map (fun o => o.showerId)) := by
  intro l
  induction l with
  | nil => intro m; simp [firstKeysAux]
  | cons o l ih =>
    intro m
    rw [List.foldl_cons, ih (showerStep m o), keysOf_showerStep]
    by_cases hk : (lookupA o.showerId m).isSome = true
    · rw [if_pos hk]
      have hmem : o.showerId ∈ keysOf m := lookupA_isSome_iff.mp hk
      simp [List.map_cons, firstKeysAux, hmem]
    · rw [if_neg hk]
      have hmem : o.showerId ∉ keysOf m := fun hx => hk (lookupA_isSome_iff.mpr hx)
      rw [List.map_cons]
      rw [show firstKeysAux (keysOf m) (o.showerId :: l.map (fun o => o.showerId)) =
            o.showerId :: firstKeysAux (o.showerId :: keysOf m) (l.map (fun o => o.showerId)) from by
          simp [firstKeysAux, hmem]]
      rw [List.append_assoc]
      simp only [List.singleton_append]
      rw [firstKeysAux_congr (l.map (fun o => o.showerId))
        (keysOf m ++ [o.showerId]) (o.showerId :: keysOf m) (fun x => by
          simp only [List.mem_append, List.mem_cons, List.mem_singleton]
          tauto)]

theorem mem_of_mem_firstKeysAux : ∀ (l seen : List String) (x : String),
    x ∈ firstKeysAux seen l → x ∈ l := by
  intro l
  induction l with
  | nil => intro seen x h; simp [firstKeysAux] at h
  | cons a l ih =>
    intro seen x h
    by_cases ha : a ∈ seen
    · simp only [firstKeysAux, if_pos ha] at h
      exact List.mem_cons_of_mem _ (ih _ _ h)
    · simp only [firstKeysAux, if_neg ha, List.mem_cons] at h
      rcases h with rfl | h
      · exact List.mem_cons_self _ _
      · exact List.mem_cons_of_mem _ (ih _ _ h)

theorem sumVal_monthStep (m : List ((ℤ × ℤ) × ℕ)) (o : Obs) :
    ((monthStep m o).map (fun e => e.2)).sum = ((m.map (fun e => e.2)).sum) + 1 := by
  cases hm : lookupA (monthKey o) m with
  | some t =>
    simp only [monthStep, hm]
    exact sumProj_updateA (fun n => n) (monthKey o) _ 1 m (fun _ => rfl) (by simp [hm])
  | none => simp [monthStep, hm]

theorem sumVal_foldl_monthStep : ∀ (l : List Obs) (m : List ((ℤ × ℤ) × ℕ)),
    (((l.foldl monthStep m).map (fun e => e.2)).sum) = ((m.map (fun e => e.2)).sum) + l.length := by
  intro l
  induction l with
  | nil => intro m; simp
  | cons o l ih =>
    intro m
    rw [List.foldl_cons, ih, sumVal_monthStep]
    simp
    omega

theorem sumObs_showerStep (m : List (String × ShowerStat)) (o : Obs) :
    ((showerStep m o).map (fun e => e.2.observations)).sum =
      ((m.map (fun e => e.2.observations)).sum) + 1 := by
  simp only [showerStep]
  cases hm : lookupA o.showerId m with
  | some t =>
    exact sumProj_updateA (fun s => s.observations) _ _ 1 m
      (fun v => applyObs_observations o v) (by rw [hm]; rfl)
  | none =>
    have hsome : (lookupA o.showerId (m ++ [(o.showerId, initStat o)])).isSome = true := by
      rw [lookupA_append_none hm]
      simp [lookupA]
    rw [sumProj_updateA (fun s => s.observations) _ _ 1 _
      (fun v => applyObs_observations o v) hsome]
    simp [List.map_append, initStat]

theorem sumMet_showerStep (m : List (String × ShowerStat)) (o : Obs) :
    ((showerStep m o).map (fun e => e.2.totalMeteors)).sum =
      ((m.map (fun e => e.2.totalMeteors)).sum) + o.meteorsCount := by
  simp only [showerStep]
  cases hm : lookupA o.showerId m with
  | some t =>
    exact sumProj_updateA (fun s => s.totalMeteors) _ _ o.meteorsCount m
      (fun v => applyObs_totalMeteors o v) (by rw [hm]; rfl)
  | none =>
    have hsome : (lookupA o.showerId (m ++ [(o.showerId, initStat o)])).isSome = true := by
      rw [lookupA_append_none hm]
      simp [lookupA]
    rw [sumProj_updateA (fun s => s.totalMeteors) _ _ o.meteorsCount _
      (fun v => applyObs_totalMeteors o v) hsome]
    simp [List.map_append, initStat]

theorem sumObs_foldl_showerStep : ∀ (l : List Obs) (m : List (String × ShowerStat)),
    ((l.foldl showerStep m).map (fun e => e.2.observations)).sum =
      ((m.map (fun e => e.2.observations)).sum) + l.length := by
  intro l
  induction l with
  | nil => intro m; simp
  | cons o l ih =>
    intro m
    rw [List.foldl_cons, ih, sumObs_showerStep]
    simp
    omega

theorem sumMet_foldl_showerStep : ∀ (l : List Obs) (m : List (String × ShowerStat)),
    ((l.foldl showerStep m).map (fun e => e.2.totalMeteors)).sum =
      ((m.map (fun e => e.2.totalMeteors)).sum) + (l.map (fun o => o.meteorsCount)).sum := by
  intro l
  induction l with
  | nil => intro m; simp
  | cons o l ih =>
    intro m
    rw [List.foldl_cons, ih, sumMet_showerStep]
    simp
    omega

/-! ### Streak calculator lemmas -/

theorem headBump_zero (xs : List ℕ) : headBump 0 xs = xs := by
  cases xs <;> simp [headBump]

theorem headBump_headBump (a b : ℕ) (xs : List ℕ) :
    headBump a (headBump b xs) = headBump (a + b) xs := by
  cases xs with
  | nil => simp [headBump]
  | cons n ns =>
    simp only [headBump, List.cons.injEq]
    exact ⟨by omega, trivial⟩

theorem runLensAux_ne_nil : ∀ (a : Obs) (l : List Obs), runLensAux a l ≠ [] := by
  intro a l
  induction l generalizing a with
  | nil => simp [runLensAux]
  | cons b rest ih =>
    simp only [runLensAux]
    split
    · cases h : runLensAux b rest with
      | nil => exact absurd h (ih b)
      | cons n ns => simp [headBump]
    · simp

theorem lastD_default_irrel {α : Type} : ∀ (l : List α) (d d' : α), l ≠ [] →
    lastD l d = lastD l d' := by
  intro l
  induction l with
  | nil => intro d d' h; exact absurd rfl h
  | cons a l ih =>
    intro d d' _
    cases l with
    | nil => rfl
    | cons b l2 =>
      simp only [lastD]
      exact ih _ _ (by simp)

theorem lastD_cons {α : Type} (a : α) (l : List α) (d : α) :
    lastD (a :: l) d = lastD l a := by
  cases l with
  | nil => rfl
  | cons b l2 =>
    simp only [lastD]
    exact lastD_default_irrel _ _ _ (by simp)

theorem lastD_mem {α : Type} : ∀ (l : List α) (d : α), l ≠ [] → lastD l d ∈ l := by
  intro l
  induction l with
  | nil => intro d h; exact absurd rfl h
  | cons a l ih =>
    intro d _
    cases l with
    | nil => simp [lastD]
    | cons b l2 =>
      simp only [lastD]
      exact List.mem_cons_of_mem _ (ih _ (by simp))

theorem getLast?_cons_eq {α : Type} : ∀ (a : α) (l : List α),
    (a :: l).getLast? = some (lastD l a) := by
  intro a l
  induction l generalizing a with
  | nil => rfl
  | cons b l ih =>
    rw [List.getLast?_cons_cons, ih b]
    exact congrArg some (lastD_cons b l a).symm

theorem foldr_max_eq_dropLast_last : ∀ xs : List ℕ,
    xs.foldr max 0 = max ((xs.dropLast).foldr max 0) (lastD xs 0) := by
  intro xs
  induction xs with
  | nil => simp [lastD]
  | cons a xs ih =>
    cases xs with
    | nil => simp [lastD]
    | cons b ys =>
      show max a ((b :: ys).foldr max 0) =
        max ((a :: (b :: ys).dropLast).foldr max 0) (lastD (b :: ys) 0)
      rw [ih, List.foldr_cons]
      exact (max_assoc a _ _).symm

theorem runLensAux_pos : ∀ (a : Obs) (l : List Obs) (n : ℕ), n ∈ runLensAux a l → 1 ≤ n := by
  intro a l
  induction l generalizing a with
  | nil => intro n h; simp [runLensAux] at h; omega
  | cons b rest ih =>
    intro n h
    simp only [runLensAux] at h
    split at h
    · cases hr : runLensAux b rest with
      | nil => exact absurd hr (runLensAux_ne_nil b rest)
      | cons m ms =>
        rw [hr] at h
        simp only [headBump, List.mem_cons] at h
        rcases h with rfl | h
        · omega
        · exact ih b n (by rw [hr]; exact List.mem_cons_of_mem _ h)
    · rcases List.mem_cons.mp h with rfl | h
      · omega
      · exact ih b n h

theorem streakLoop_eq : ∀ (l : List Obs) (prev : Obs) (t longest : ℕ),
    streakLoop prev (t + 1) longest l =
      (lastD (headBump t (runLensAux prev l)) 0,
       max longest (((headBump t (runLensAux prev l)).dropLast).foldr max 0),
       lastD l prev) := by
  intro l
  induction l with
  | nil =>
    intro prev t longest
    simp [streakLoop, runLensAux, headBump, lastD, Nat.add_comm]
  | cons curr rest ih =>
    intro prev t longest
    simp only [streakLoop]
    by_cases hgap : dayGapLE prev.date curr.date
    · rw [if_pos hgap]
      rw [show streakLoop curr (t + 1 + 1) longest rest =
            (lastD (headBump (t + 1) (runLensAux curr rest)) 0,
             max longest (((headBump (t + 1) (runLensAux curr rest)).dropLast).foldr max 0),
             lastD rest curr) from ih curr (t + 1) longest]
      rw [show runLensAux prev (curr :: rest) = headBump 1 (runLensAux curr rest) from by
        simp [runLensAux, hgap]]
      rw [headBump_headBump, lastD_cons]
    · rw [if_neg hgap]
      rw [show streakLoop curr (0 + 1) (max longest (t + 1)) rest =
            (lastD (headBump 0 (runLensAux curr rest)) 0,
             max (max longest (t + 1)) (((headBump 0 (runLensAux curr rest)).dropLast).foldr max 0),
             lastD rest curr) from ih curr 0 (max longest (t + 1))]
      rw [headBump_zero]
      rw [show runLensAux prev (curr :: rest) = 1 :: runLensAux curr rest from by
        simp [runLensAux, hgap]]
      rw [show headBump t (1 :: runLensAux curr rest) = (1 + t) :: runLensAux curr rest from rfl]
      obtain ⟨y, ys, hY⟩ : ∃ y ys, runLensAux curr rest = y :: ys := by
        cases hY : runLensAux curr rest with
        | nil => exact absurd hY (runLensAux_ne_nil curr rest)
        | cons y ys => exact ⟨y, ys, rfl⟩
      rw [hY]
      simp only [Prod.mk.injEq]
      refine ⟨rfl, ?_, (lastD_cons curr rest prev).symm⟩
      show max (max longest (t + 1)) (((y :: ys).dropLast).foldr max 0) =
        max longest (((1 + t) :: (y :: ys).dropLast).foldr max 0)
      rw [List.foldr_cons]
      omega

theorem calculateStreaks_eq_spec (now : ℤ) (l : List Obs) :
    calculateStreaks now l = ⟨currentStreakSpec now l, longestRunSpec l⟩ := by
  cases l with
  | nil => rfl
  | cons d ds =>
    have hloop : streakLoop d 1 1 ds =
        (lastD (runLensAux d ds) 0,
         max 1 (((runLensAux d ds).dropLast).foldr max 0),
         lastD ds d) := by
      have h := streakLoop_eq ds d 0 1
      rw [headBump_zero] at h
      exact h
    simp only [calculateStreaks, hloop]
    rw [show currentStreakSpec now (d :: ds) =
          if dayGapLE (lastD ds d).date now then trailingRunSpec (d :: ds) else 0 from by
        simp [currentStreakSpec, getLast?_cons_eq]]
    have hY := runLensAux_ne_nil d ds
    have hlast_pos : 1 ≤ lastD (runLensAux d ds) 0 :=
      runLensAux_pos d ds _ (lastD_mem (runLensAux d ds) 0 hY)
    simp only [StreakResult.mk.injEq]
    constructor
    · rfl
    · show max (max 1 (((runLensAux d ds).dropLast).foldr max 0)) (lastD (runLensAux d ds) 0) =
        longestRunSpec (d :: ds)
      rw [show longestRunSpec (d :: ds) = (runLensAux d ds).foldr max 0 from rfl,
        foldr_max_eq_dropLast_last (runLensAux d ds)]
      omega

/-! ### Claim theorems -/

/-- C1: for every observation list sorted ascending by date and evaluation
time `now`, `calculateStreaks` returns as `longestStreak` the length of the
longest maximal run of consecutive observations at most 7 days apart, and as
`currentStreak` the trailing run length when the last observation is within
7 days of `now` and 0 otherwise; the empty list yields {0, 0}; a single
observation yields {1, 1} when within 7 days of `now`, else {0, 1}; and the
dates 2025-01-01, 2025-01-05, 2025-01-20 yield longestStreak 2 with
currentStreak 0 at a far-future `now`. -/
theorem C1_streaks :
    (∀ (now : ℤ) (l : List Obs), List.Sorted (fun a b => a.date ≤ b.date) l →
        calculateStreaks now l = ⟨currentStreakSpec now l, longestRunSpec l⟩) ∧
    (∀ now : ℤ, calculateStreaks now [] = ⟨0, 0⟩) ∧
    (∀ (now : ℤ) (o : Obs), calculateStreaks now [o] =
        ⟨if dayGapLE o.date now then 1 else 0, 1⟩) ∧
    calculateStreaks farNow [oStreak1, oStreak2, oStreak3] = ⟨0, 2⟩ := by
  refine ⟨fun now l _ => calculateStreaks_eq_spec now l, fun now => rfl, ?_, ?_⟩
  · intro now o
    simp [calculateStreaks, streakLoop]
  · norm_num [calculateStreaks, streakLoop, dayGapLE, farNow, oStreak1, oStreak2, oStreak3]

/-- Witness for C1: the sortedness hypothesis discharged at the concrete
three-observation list. -/
theorem C1_streaks_witness :
    calculateStreaks farNow [oStreak1, oStreak2, oStreak3] =
      ⟨currentStreakSpec farNow [oStreak1, oStreak2, oStreak3],
       longestRunSpec [oStreak1, oStreak2, oStreak3]⟩ :=
  C1_streaks.1 farNow [oStreak1, oStreak2, oStreak3] (by
    norm_num [List.sorted_cons, oStreak1, oStreak2, oStreak3])

/-- C2 (code evaluation): the source derives a session's duration as
end − start on the same calendar date, so the 23:00→01:00 session gets
−22 hours — not the nonnegative +2 hours that the claimed 24-hour rollover
(last conjunct) would give — and both `totalHours` and `longestSession`
go negative. -/
theorem C2_midnight_negative :
    durationHours oMidnight = -22 ∧
    (calculateStats 0 [oMidnight]).totalHours = -22 ∧
    (calculateStats 0 [oMidnight]).longestSession = -22 ∧
    (calculateStats 0 [oMidnight]).totalHours < 0 ∧
    (((oMidnight.endTime : ℤ) * 60000 + 86400000 - (oMidnight.startTime : ℤ) * 60000 : ℤ) : ℚ)
        / 3600000 = 2 := by
  refine ⟨by norm_num [durationHours, oMidnight], ?_, ?_, ?_, by norm_num [oMidnight]⟩
  · show (([oMidnight].map durationHours)).sum = -22
    norm_num [durationHours, oMidnight]
  · show listMaxQ ((sortByDate [oMidnight]).map durationHours) = -22
    norm_num [sortByDate, insByDate, listMaxQ, durationHours, oMidnight]
  · show (([oMidnight].map durationHours)).sum < 0
    norm_num [durationHours, oMidnight]

/-- C5: `calculateStats` on the empty list is the canonical zero record:
all totals 0, empty favorite string, zero streaks and empty mappings. -/
theorem C5_empty_stats : ∀ now : ℤ,
    calculateStats now [] = getEmptyStats ∧
    (calculateStats now []).totalObservations = 0 ∧
    (calculateStats now []).totalMeteors = 0 ∧
    (calculateStats now []).totalHours = 0 ∧
    (calculateStats now []).averageRating = 0 ∧
    (calculateStats now []).favoriteShower = "" ∧
    (calculateStats now []).longestSession = 0 ∧
    (calculateStats now []).currentStreak = 0 ∧
    (calculateStats now []).longestStreak = 0 ∧
    (calculateStats now []).monthlyStats = [] ∧
    (calculateStats now []).showerStats = [] :=
  fun _ => ⟨rfl, rfl, rfl, rfl, rfl, rfl, rfl, rfl, rfl, rfl, rfl⟩

/-- C10: the statistics are internally consistent: monthly counts sum to
`totalObservations`, per-shower observation counts sum to
`totalObservations`, and per-shower meteor totals sum to `totalMeteors`. -/
theorem C10_consistency (now : ℤ) (l : List Obs) :
    (((calculateStats now l).monthlyStats).map (fun e => e.2)).sum =
        (calculateStats now l).totalObservations ∧
    (((calculateStats now l).showerStats).map (fun e => e.2.observations)).sum =
        (calculateStats now l).totalObservations ∧
    (((calculateStats now l).showerStats).map (fun e => e.2.totalMeteors)).sum =
        (calculateStats now l).totalMeteors := by
  cases l with
  | nil => exact ⟨rfl, rfl, rfl⟩
  | cons a l2 =>
    refine ⟨?_, ?_, ?_⟩
    · show (((a :: l2).foldl monthStep []).map (fun e => e.2)).sum = (a :: l2).length
      rw [sumVal_foldl_monthStep]
      simp
    · show ((avgPass (a :: l2) ((a :: l2).foldl showerStep [])).map
          (fun e => e.2.observations)).sum = (a :: l2).length
      rw [sumObs_avgPass, sumObs_foldl_showerStep]
      simp
    · show ((avgPass (a :: l2) ((a :: l2).foldl showerStep [])).map
          (fun e => e.2.totalMeteors)).sum = ((a :: l2).map (fun o => o.meteorsCount)).sum
      rw [sumMet_avgPass, sumMet_foldl_showerStep]
      simp

/-- C9: `getMoonIllumination` equals `round(|cos(phase·2π)|·100)`, an
integer between 0 and 100, and at the fixed new-moon anchor date the phase
is 0 while the illumination is 100 (the cosine approximation's quirk,
reproduced rather than corrected). -/
theorem C9_moon :
    (∀ t : ℝ,
        getMoonIllumination t = round (|Real.cos (getMoonPhase t * (2 * Real.pi))| * 100) ∧
        0 ≤ getMoonIllumination t ∧ getMoonIllumination t ≤ 100) ∧
    getMoonPhase 947116800000 = 0 ∧ getMoonIllumination 947116800000 = 100 := by
  have habs : ∀ t : ℝ, 0 ≤ |Real.cos (getMoonPhase t * (2 * Real.pi))| * 100 := fun t => by
    positivity
  have habs2 : ∀ t : ℝ, |Real.cos (getMoonPhase t * (2 * Real.pi))| * 100 ≤ 100 := fun t => by
    have h := Real.abs_cos_le_one (getMoonPhase t * (2 * Real.pi))
    nlinarith
  have hphase : getMoonPhase 947116800000 = 0 := by
    simp [getMoonPhase]
  refine ⟨fun t => ⟨rfl, ?_, ?_⟩, hphase, ?_⟩
  · show 0 ≤ round (|Real.cos (getMoonPhase t * (2 * Real.pi))| * 100)
    rw [round_eq]
    have h := habs t
    exact Int.le_floor.mpr (by push_cast; linarith)
  · show round (|Real.cos (getMoonPhase t * (2 * Real.pi))| * 100) ≤ 100
    rw [round_eq]
    have h := habs2 t
    have h2 : ⌊|Real.cos (getMoonPhase t * (2 * Real.pi))| * 100 + 1 / 2⌋ < 101 :=
      Int.floor_lt.mpr (by push_cast; linarith)
    omega
  · show round (|Real.cos (getMoonPhase 947116800000 * (2 * Real.pi))| * 100) = 100
    rw [hphase]
    rw [show (0 : ℝ) * (2 * Real.pi) = 0 from by ring, Real.cos_zero]
    rw [show |(1 : ℝ)| * 100 = ((100 : ℤ) : ℝ) from by norm_num]
    exact round_intCast 100

theorem leBest_total (a b : BestSession) : leBest a b = true ∨ leBest b a = true := by
  simp only [leBest, decide_eq_true_eq]
  omega

theorem leBest_trans (a b c : BestSession) :
    leBest a b = true → leBest b c = true → leBest a c = true := by
  simp only [leBest, decide_eq_true_eq]
  omega

/-- C3: for every list and every shower present in its `showerStats`, the
recorded `bestSession` is the first maximal member of that shower's group
(highest meteor count, ties by highest rating, remaining ties to the first
appearance in the input list); in particular with meteor counts {10, 25}
and ratings {5, 3} the 25-meteor session is selected. -/
theorem C3_bestSession :
    (∀ (now : ℤ) (l : List Obs) (s : String) (r : ShowerStat),
        lookupA s (calculateStats now l).showerStats = some r →
        r.bestSession =
          (firstMaxSpec leBest ((l.filter (fun o => o.showerId == s)).map toBest)).getD
            ⟨0, 0, 0⟩) ∧
    (lookupA "per" (calculateStats 0 [oBest10, oBest25]).showerStats).map
        (fun r => r.bestSession) = some (toBest oBest25) := by
  constructor
  · intro now l s r hr
    cases l with
    | nil => simp [calculateStats, getEmptyStats, lookupA] at hr
    | cons a l2 =>
      have hss : (calculateStats now (a :: l2)).showerStats =
          avgPass (a :: l2) ((a :: l2).foldl showerStep []) := rfl
      rw [hss, lookupA_avgPass] at hr
      have hmaster := lookupA_foldl_showerStep (a :: l2) [] s
      rw [show lookupA s ([] : List (String × ShowerStat)) = none from rfl] at hmaster
      rw [hmaster] at hr
      cases hg : (a :: l2).filter (fun o => o.showerId == s) with
      | nil =>
        rw [hg] at hr
        simp [groupAgg] at hr
      | cons x g =>
        rw [hg] at hr
        simp only [groupAgg, Option.map_some'] at hr
        have hrv := Option.some.inj hr
        rw [← hrv]
        show (g.foldl (fun a o => applyObs o a) (applyObs x (initStat x))).bestSession = _
        rw [foldl_applyObs_bestSession]
        have hseed : (applyObs x (initStat x)).bestSession = toBest x := by
          rw [applyObs_bestSession]
          simp [initStat]
        rw [hseed]
        rw [foldBest_eq_firstMax leBest leBest_total leBest_trans]
        rw [show toBest x :: g.map toBest = ((x :: g).map toBest) from rfl]
        have hsome := firstMaxSpec_isSome leBest leBest_total leBest_trans
          (l := (x :: g).map toBest) (by simp)
        obtain ⟨v, hv⟩ := Option.isSome_iff_exists.mp hsome
        rw [hv]
        rfl
  · norm_num [calculateStats, avgPass, ratingAvg, showerStep, updateA, lookupA,
      applyObs, initStat, toBest, oBest10, oBest25]

/-- Witness for C3: the lookup hypothesis discharged at the concrete
two-session list of shower "per". -/
theorem C3_bestSession_witness :
    (⟨2, 35, 4, toBest oBest25⟩ : ShowerStat).bestSession =
      (firstMaxSpec leBest (([oBest10, oBest25].filter
          (fun o => o.showerId == "per")).map toBest)).getD ⟨0, 0, 0⟩ :=
  C3_bestSession.1 0 [oBest10, oBest25] "per" ⟨2, 35, 4, toBest oBest25⟩ (by
    norm_num [calculateStats, avgPass, ratingAvg, showerStep, updateA, lookupA,
      applyObs, initStat, toBest, oBest10, oBest25])

theorem leCount_total (M : List (String × ShowerStat)) (a b : String) :
    leCount M a b = true ∨ leCount M b a = true := by
  simp only [leCount, decide_eq_true_eq]
  omega

theorem leCount_trans (M : List (String × ShowerStat)) (a b c : String) :
    leCount M a b = true → leCount M b c = true → leCount M a c = true := by
  simp only [leCount, decide_eq_true_eq]
  omega

theorem codeFold_eq_foldBest (M : List (String × ShowerStat)) :
    ∀ (ks : List String) (b : String),
      ks.foldl (fun fav k => if countOf M k > countOf M fav then k else fav) b =
        foldBest (leCount M) b ks := by
  intro ks
  induction ks with
  | nil => intro b; rfl
  | cons k ks ih =>
    intro b
    rw [List.foldl_cons, show foldBest (leCount M) b (k :: ks) =
        foldBest (leCount M) (if leCount M k b then b else k) ks from by simp [foldBest]]
    rw [ih]
    congr 1
    by_cases h : countOf M k ≤ countOf M b
    · rw [if_neg (by omega), if_pos (by simp [leCount, h])]
    · rw [if_pos (by omega), if_neg (by simp [leCount, h])]


theorem countOf_calculateStats (now : ℤ) (a : Obs) (l2 : List Obs) (k : String) :
    countOf (calculateStats now (a :: l2)).showerStats k =
      ((a :: l2).filter (fun o => o.showerId == k)).length := by
  show countOf (avgPass (a :: l2) ((a :: l2).foldl showerStep [])) k = _
  unfold countOf
  rw [lookupA_avgPass]
  have hmaster := lookupA_foldl_showerStep (a :: l2) [] k
  rw [show lookupA k ([] : List (String × ShowerStat)) = none from rfl] at hmaster
  rw [hmaster]
  cases hg : (a :: l2).filter (fun o => o.showerId == k) with
  | nil => simp [groupAgg]
  | cons x g =>
    simp only [groupAgg, Option.map_some', Option.getD_some]
    show (g.foldl (fun a o => applyObs o a) (applyObs x (initStat x))).observations =
      (x :: g).length
    rw [foldl_applyObs_observations, applyObs_observations]
    simp [initStat]
    omega

theorem keysOf_calculateStats (now : ℤ) (a : Obs) (l2 : List Obs) :
    keysOf (calculateStats now (a :: l2)).showerStats =
      firstKeys ((a :: l2).map (fun o => o.showerId)) := by
  show keysOf (avgPass (a :: l2) ((a :: l2).foldl showerStep [])) = _
  rw [keysOf_avgPass, keysOf_foldl_showerStep]
  simp [firstKeys, keysOf]

theorem favorite_eq_foldBest (now : ℤ) (a : Obs) (l2 : List Obs) :
    (calculateStats now (a :: l2)).favoriteShower =
      foldBest (leCount (calculateStats now (a :: l2)).showerStats) ""
        (keysOf (calculateStats now (a :: l2)).showerStats) := by
  show (keysOf (avgPass (a :: l2) ((a :: l2).foldl showerStep []))).foldl
      (fun fav k =>
        if countOf (avgPass (a :: l2) ((a :: l2).foldl showerStep [])) k >
            countOf (avgPass (a :: l2) ((a :: l2).foldl showerStep [])) fav
        then k else fav) "" = _
  rw [codeFold_eq_foldBest]
  rfl

/-- C4 counterexample: with one observation of shower "a" and then one of
the empty-string shower (counts tied at 1), the code returns `""` as
`favoriteShower` — its scan is seeded with the empty string, which here is
itself a key — while the claimed tie-break (largest count, ties to the
first-created group) selects "a". -/
theorem C4_favorite_counterexample :
    (calculateStats 0 [oShowerA, oShowerEmpty]).favoriteShower = "" ∧
    firstMaxSpec (leCount (calculateStats 0 [oShowerA, oShowerEmpty]).showerStats)
        (keysOf (calculateStats 0 [oShowerA, oShowerEmpty]).showerStats) = some "a" ∧
    countOf (calculateStats 0 [oShowerA, oShowerEmpty]).showerStats "a" = 1 ∧
    countOf (calculateStats 0 [oShowerA, oShowerEmpty]).showerStats "" = 1 ∧
    keysOf (calculateStats 0 [oShowerA, oShowerEmpty]).showerStats = ["a", ""] ∧
    ("" : String) ≠ "a" := by
  have hca : countOf (calculateStats 0 [oShowerA, oShowerEmpty]).showerStats "a" = 1 := by
    rw [countOf_calculateStats]
    decide
  have hce : countOf (calculateStats 0 [oShowerA, oShowerEmpty]).showerStats "" = 1 := by
    rw [countOf_calculateStats]
    decide
  have hkeys : keysOf (calculateStats 0 [oShowerA, oShowerEmpty]).showerStats = ["a", ""] := by
    rw [keysOf_calculateStats]
    decide
  have h_a_a : leCount (calculateStats 0 [oShowerA, oShowerEmpty]).showerStats "a" "a" = true := by
    simp [leCount]
  have h_e_a : leCount (calculateStats 0 [oShowerA, oShowerEmpty]).showerStats "" "a" = true := by
    simp [leCount, hca, hce]
  have h_a_e : leCount (calculateStats 0 [oShowerA, oShowerEmpty]).showerStats "a" "" = true := by
    simp [leCount, hca, hce]
  have h_e_e : leCount (calculateStats 0 [oShowerA, oShowerEmpty]).showerStats "" "" = true := by
    simp [leCount]
  refine ⟨?_, ?_, hca, hce, hkeys, by decide⟩
  · rw [favorite_eq_foldBest, hkeys]
    simp [foldBest, h_a_e, h_e_e]
  · rw [hkeys]
    simp [firstMaxSpec, maxPred, List.find?, h_a_a, h_e_a]

/-- C4 (amended): for every non-empty observation list in which no
observation has the empty string as showerId, `favoriteShower` is the first
key of `showerStats` (first-appearance order) carrying the largest
observation count; the keys of `showerStats` are the showerIds in order of
first appearance in the input; and each shower's recorded count is the size
of its group. -/
theorem C4_favorite_amended (now : ℤ) (l : List Obs) (hne : l ≠ [])
    (hid : ∀ o ∈ l, o.showerId ≠ "") :
    (calculateStats now l).favoriteShower =
      (firstMaxSpec (leCount (calculateStats now l).showerStats)
        (keysOf (calculateStats now l).showerStats)).getD "" ∧
    keysOf (calculateStats now l).showerStats = firstKeys (l.map (fun o => o.showerId)) ∧
    (∀ k : String, countOf (calculateStats now l).showerStats k =
      (l.filter (fun o => o.showerId == k)).length) := by
  cases l with
  | nil => exact absurd rfl hne
  | cons a l2 =>
    refine ⟨?_, keysOf_calculateStats now a l2, fun k => countOf_calculateStats now a l2 k⟩
    have hkeys := keysOf_calculateStats now a l2
    obtain ⟨k1, ks, hk⟩ : ∃ k1 ks,
        keysOf (calculateStats now (a :: l2)).showerStats = k1 :: ks := by
      rw [hkeys]
      refine ⟨a.showerId, firstKeysAux [a.showerId] (l2.map (fun o => o.showerId)), ?_⟩
      simp [firstKeys, firstKeysAux]
    have hk1cnt : 1 ≤ countOf (calculateStats now (a :: l2)).showerStats k1 := by
      rw [countOf_calculateStats]
      have hk1l : k1 ∈ (a :: l2).map (fun o => o.showerId) := by
        have h2 : k1 ∈ keysOf (calculateStats now (a :: l2)).showerStats := by
          rw [hk]
          exact List.mem_cons_self _ _
        rw [hkeys] at h2
        exact mem_of_mem_firstKeysAux _ _ _ h2
      obtain ⟨o, ho, hok⟩ := List.mem_map.mp hk1l
      have hmem : o ∈ (a :: l2).filter (fun o => o.showerId == k1) :=
        List.mem_filter.mpr ⟨ho, by simp [hok]⟩
      have hpos := List.length_pos.mpr (List.ne_nil_of_mem hmem)
      omega
    have hcnt0 : countOf (calculateStats now (a :: l2)).showerStats "" = 0 := by
      rw [countOf_calculateStats, List.length_eq_zero, List.filter_eq_nil_iff]
      intro o ho
      simpa using hid o ho
    have hle : leCount (calculateStats now (a :: l2)).showerStats k1 "" = false := by
      simp only [leCount, decide_eq_false_iff_not]
      omega
    rw [favorite_eq_foldBest now a l2, hk]
    have hstep1 : foldBest (leCount (calculateStats now (a :: l2)).showerStats) "" (k1 :: ks) =
        foldBest (leCount (calculateStats now (a :: l2)).showerStats) k1 ks := by
      show List.foldl
          (fun acc x => if leCount (calculateStats now (a :: l2)).showerStats x acc = true
            then acc else x)
          (if leCount (calculateStats now (a :: l2)).showerStats k1 "" = true then "" else k1)
          ks =
        List.foldl
          (fun acc x => if leCount (calculateStats now (a :: l2)).showerStats x acc = true
            then acc else x) k1 ks
      simp only [hle]
      simp
    rw [hstep1, foldBest_eq_firstMax _ (leCount_total _) (leCount_trans _)]
    have hsome := firstMaxSpec_isSome (leCount (calculateStats now (a :: l2)).showerStats)
      (leCount_total _) (leCount_trans _) (l := k1 :: ks) (by simp)
    obtain ⟨v, hv⟩ := Option.isSome_iff_exists.mp hsome
    rw [hv]
    rfl

/-- Witness for C4 (amended): both hypotheses discharged at the singleton
list of shower "a". -/
theorem C4_favorite_witness :
    (calculateStats 0 [oShowerA]).favoriteShower =
      (firstMaxSpec (leCount (calculateStats 0 [oShowerA]).showerStats)
        (keysOf (calculateStats 0 [oShowerA]).showerStats)).getD "" ∧
    keysOf (calculateStats 0 [oShowerA]).showerStats =
      firstKeys ([oShowerA].map (fun o => o.showerId)) ∧
    (∀ k : String, countOf (calculateStats 0 [oShowerA]).showerStats k =
      ([oShowerA].filter (fun o => o.showerId == k)).length) :=
  C4_favorite_amended 0 [oShowerA] (by simp) (by
    intro o ho
    rw [List.mem_singleton] at ho
    subst ho
    decide)

/-! ### Persistence-layer lemmas and claims -/

theorem find?_id_append_right {l : List Obs} {o : Obs}
    (h : l.any (fun x => x.id == o.id) = false) :
    (l ++ [o]).find? (fun x => x.id == o.id) = some o := by
  induction l with
  | nil => simp [List.find?]
  | cons x l ih =>
    rw [List.any_cons] at h
    have hx : (x.id == o.id) = false := by
      cases hx : (x.id == o.id) with
      | false => rfl
      | true => rw [hx] at h; simp at h
    have hl : l.any (fun x => x.id == o.id) = false := by
      cases hl : l.any (fun x => x.id == o.id) with
      | false => rfl
      | true => rw [hl] at h; simp at h
    rw [List.cons_append, List.find?_cons_of_neg _ (by simp [hx])]
    exact ih hl

theorem replaceFirst_find {l : List Obs} {o : Obs} {now : ℤ}
    (h : l.any (fun x => x.id == o.id) = true) :
    (replaceFirst o now l).find? (fun x => x.id == o.id) =
      some { o with updatedAt := now } := by
  induction l with
  | nil => simp at h
  | cons x l ih =>
    by_cases hx : x.id = o.id
    · rw [show replaceFirst o now (x :: l) = { o with updatedAt := now } :: l from by
        simp [replaceFirst, hx]]
      rw [List.find?_cons_of_pos _ (by simp)]
    · rw [show replaceFirst o now (x :: l) = x :: replaceFirst o now l from by
        simp [replaceFirst, hx]]
      rw [List.find?_cons_of_neg _ (by simp [hx])]
      rw [List.any_cons] at h
      have hl : l.any (fun x => x.id == o.id) = true := by
        have hxb : (x.id == o.id) = false := by simp [hx]
        rw [hxb] at h
        simpa using h
      exact ih hl

/-- C6 counterexample: the save succeeds (its observation write went
through and `updateStats` swallows its own error), yet the stats write
failed, so the persisted stats cache does not equal the statistics
recomputed from the persisted list. -/
theorem C6_cache_counterexample :
    (saveObservation 0 ⟨none, none⟩ oSave false false false true).1 = Except.ok () ∧
    (saveObservation 0 ⟨none, none⟩ oSave false false false true).2.statsItem ≠
      some (calculateStats 0
        ((saveObservation 0 ⟨none, none⟩ oSave false false false true).2.obsItem.getD [])) := by
  refine ⟨rfl, ?_⟩
  show (none : Option ObservationStats) ≠ some _
  simp

/-- C6 (amended): after a successful save or delete in which the stats
update's internal read and write also succeed, the persisted stats cache
equals the statistics recomputed from the persisted observation list. -/
theorem C6_cache_amended (now : ℤ) (kv : KV) (o : Obs) (oid : String) (f1 f2 : Bool) :
    ((saveObservation now kv o f1 f2 false false).1 = Except.ok () →
      (saveObservation now kv o f1 f2 false false).2.statsItem =
        some (calculateStats now
          ((saveObservation now kv o f1 f2 false false).2.obsItem.getD []))) ∧
    ((deleteObservation now kv oid f1 f2 false false).1 = Except.ok () →
      (deleteObservation now kv oid f1 f2 false false).2.statsItem =
        some (calculateStats now
          ((deleteObservation now kv oid f1 f2 false false).2.obsItem.getD []))) := by
  constructor
  · intro hok
    cases f2 with
    | true => simp [saveObservation] at hok
    | false => simp [saveObservation, updateStats, getObservations]
  · intro hok
    cases f2 with
    | true => simp [deleteObservation] at hok
    | false => simp [deleteObservation, updateStats, getObservations]

/-- Witness for C6 (amended): the success hypothesis discharged at a
fault-free save into an empty store. -/
theorem C6_cache_witness :
    (saveObservation 0 ⟨none, none⟩ oSave false false false false).2.statsItem =
      some (calculateStats 0
        ((saveObservation 0 ⟨none, none⟩ oSave false false false false).2.obsItem.getD [])) :=
  (C6_cache_amended 0 ⟨none, none⟩ oSave "x" false false).1 rfl

/-- C7 counterexample: the store raises during the read inside
`saveObservation` (`f1 = true`); the error does not propagate — the call
returns ok — and the stored observation list is changed, wiping the
previously stored observation. -/
theorem C7_error_counterexample :
    (saveObservation 0 kvPrev oSave true false false false).1 = Except.ok () ∧
    (saveObservation 0 kvPrev oSave true false false false).2.obsItem = some [oSave] ∧
    (saveObservation 0 kvPrev oSave true false false false).2.obsItem ≠ kvPrev.obsItem := by
  exact ⟨rfl, by decide, by decide⟩

/-- C7 (amended): when the write of the updated observation list raises,
the error propagates out of save/delete and the store is unchanged; store
failures during the internal read are swallowed (the read degrades to an
empty list, so such a failure silently replaces the stored list) as are
stats-update failures; and the read paths `getObservations` / `getStats`
degrade to the empty list and the zero record instead of propagating. -/
theorem C7_error_amended :
    (∀ (now : ℤ) (kv : KV) (o : Obs) (f1 f3 f4 : Bool),
        saveObservation now kv o f1 true f3 f4 = (Except.error (), kv)) ∧
    (∀ (now : ℤ) (kv : KV) (oid : String) (f1 f3 f4 : Bool),
        deleteObservation now kv oid f1 true f3 f4 = (Except.error (), kv)) ∧
    (∀ kv : KV, getObservations kv true = []) ∧
    (∀ kv : KV, getStats kv true = getEmptyStats) :=
  ⟨fun _ _ _ _ _ _ => rfl, fun _ _ _ _ _ _ => rfl, fun _ => rfl, fun _ => rfl⟩

/-- C8 counterexample: on the insert path `updatedAt` is NOT refreshed —
the observation is stored verbatim with its caller-supplied `updatedAt` 5
rather than the save time 10. -/
theorem C8_upsert_counterexample :
    (saveObservation 10 ⟨none, none⟩ oSave false false false false).2.obsItem = some [oSave] ∧
    oSave.updatedAt = 5 ∧
    (5 : ℤ) ≠ 10 := by
  exact ⟨by decide, rfl, by decide⟩

/-- C8 (amended): a fault-free save inserts `o` unchanged when its id is
unseen and otherwise replaces the first record with that id by `o` with
`updatedAt` set to the save time; immediately reloading then finds a record
equal to `o` in every field except possibly `updatedAt`, whose value is at
least `o.updatedAt` whenever `o.updatedAt ≤ now`. -/
theorem C8_upsert_amended (now : ℤ) (kv : KV) (o : Obs) (hupd : o.updatedAt ≤ now) :
    (saveObservation now kv o false false false false).1 = Except.ok () ∧
    ∃ o2 : Obs,
      (getObservations (saveObservation now kv o false false false false).2 false).find?
          (fun x => x.id == o.id) = some o2 ∧
      o2 = { o with updatedAt := o2.updatedAt } ∧
      o.updatedAt ≤ o2.updatedAt ∧
      (((getObservations kv false).any (fun x => x.id == o.id)) = false → o2 = o) ∧
      (((getObservations kv false).any (fun x => x.id == o.id)) = true →
        o2 = { o with updatedAt := now }) := by
  refine ⟨rfl, ?_⟩
  have hreload : getObservations (saveObservation now kv o false false false false).2 false =
      upsertList now o (getObservations kv false) := rfl
  rw [hreload]
  cases hany : (getObservations kv false).any (fun x => x.id == o.id) with
  | false =>
    refine ⟨o, ?_, rfl, le_refl _, fun _ => rfl, fun hc => by simp at hc⟩
    rw [show upsertList now o (getObservations kv false) =
        getObservations kv false ++ [o] from by simp [upsertList, hany]]
    exact find?_id_append_right hany
  | true =>
    refine ⟨{ o with updatedAt := now }, ?_, rfl, by simpa using hupd,
      fun hc => by simp at hc, fun _ => rfl⟩
    rw [show upsertList now o (getObservations kv false) =
        replaceFirst o now (getObservations kv false) from by simp [upsertList, hany]]
    exact replaceFirst_find hany

/-- Witness for C8 (amended): the `updatedAt ≤ now` hypothesis discharged
at a concrete insert into a store holding an unrelated record. -/
theorem C8_upsert_witness :
    (saveObservation 10 kvPrev oSave false false false false).1 = Except.ok () ∧
    ∃ o2 : Obs,
      (getObservations (saveObservation 10 kvPrev oSave false false false false).2 false).find?
          (fun x => x.id == oSave.id) = some o2 ∧
      o2 = { oSave with updatedAt := o2.updatedAt } ∧
      oSave.updatedAt ≤ o2.updatedAt ∧
      (((getObservations kvPrev false).any (fun x => x.id == oSave.id)) = false → o2 = oSave) ∧
      (((getObservations kvPrev false).any (fun x => x.id == oSave.id)) = true →
        o2 = { oSave with updatedAt := 10 }) :=
  C8_upsert_amended 10 kvPrev oSave (by decide)
